import Mathlib

/-!
Verification of the line tokenizer `split_quoted_line` from `src/main.rs`
of the rust-cli shell. The tokenizer is a character-by-character state
machine with three pieces of state: the single-quote flag `in_single`,
the double-quote flag `in_double`, and the pending-escape flag `esc`,
plus the token under construction `cur` and the output list `parts`.
-/

namespace RustCli

/-- Rust `char::is_ascii_whitespace`: space, horizontal tab, line feed,
form feed, carriage return. -/
def isAsciiWhitespace (c : Char) : Bool :=
  c = ' ' || c = '\t' || c = '\n' || c = '\x0c' || c = '\r'

/-- The mutable locals of `split_quoted_line`, gathered in one record:
`parts` and `cur` are the output accumulator and the token under
construction; `in_single`, `in_double` and `esc` are the quoting flags. -/
structure TokState where
  parts : List String
  cur : String
  in_single : Bool
  in_double : Bool
  esc : Bool
  deriving Repr, DecidableEq

/-- The initial state of a `split_quoted_line` invocation. -/
def initState : TokState := ⟨[], "", false, false, false⟩

/-- One iteration of the `for ch in line.chars()` loop of
`split_quoted_line`, transcribed branch by branch from the source. -/
def stepChar (s : TokState) (ch : Char) : TokState :=
  if s.in_double then
    if s.esc then
      if ch = '"' ∨ ch = '\\' then
        { s with cur := s.cur.push ch, esc := false }
      else
        { s with cur := (s.cur.push '\\').push ch, esc := false }
    else if ch = '\\' then
      { s with esc := true }
    else if ch = '"' then
      { s with in_double := false }
    else
      { s with cur := s.cur.push ch }
  else if s.in_single then
    if ch = '\'' then
      { s with in_single := false }
    else
      { s with cur := s.cur.push ch }
  else if s.esc then
    { s with cur := s.cur.push ch, esc := false }
  else if ch = '\'' then
    { s with in_single := true }
  else if ch = '"' then
    { s with in_double := true }
  else if ch = '\\' then
    { s with esc := true }
  else if isAsciiWhitespace ch then
    if s.cur = "" then s
    else { s with parts := s.parts ++ [s.cur], cur := "" }
  else
    { s with cur := s.cur.push ch }

/-- The state reached after the main loop of `split_quoted_line` has
consumed the whole line. -/
def runState (line : List Char) : TokState :=
  line.foldl stepChar initState

/-- The epilogue of `split_quoted_line`: a still-pending escape appends a
literal backslash, then a non-empty current token is flushed. -/
def finalize (s : TokState) : List String :=
  let cur := if s.esc then s.cur.push '\\' else s.cur
  if cur = "" then s.parts else s.parts ++ [cur]

/-- `split_quoted_line` from `src/main.rs`, on the character list of the
input line. -/
def split_quoted_line (line : List Char) : List String :=
  finalize (runState line)

/-- Modelled from the spec: splitting a line at every ASCII whitespace
character gives the groups of non-whitespace characters between
delimiters (empty groups mark adjoining delimiters and the line ends). -/
def splitWs (cs : List Char) : List (List Char) :=
  match cs with
  | [] => [[]]
  | c :: rest =>
    if isAsciiWhitespace c then [] :: splitWs rest
    else (splitWs rest).modifyHead (fun g => c :: g)

/-- Modelled from the spec: the whitespace-split tokens of a line, with
runs of whitespace collapsed and leading/trailing whitespace ignored,
obtained by dropping the empty groups of `splitWs`. -/
def wsSplit (cs : List Char) : List String :=
  (splitWs cs).filterMap (fun g => if g.isEmpty then none else some (String.mk g))

/-- Pushing a character never yields the empty string. -/
theorem push_ne_empty (s : String) (c : Char) : s.push c ≠ "" := by
  intro h
  have h2 : (s.push c).data = ("" : String).data := congrArg String.data h
  simp [String.data_push] at h2

/-- Applying two head modifications composes them. -/
theorem modifyHead_modifyHead (l : List (List Char))
    (f g : List Char → List Char) :
    (l.modifyHead g).modifyHead f = l.modifyHead (fun a => f (g a)) := by
  cases l <;> rfl

/-- Prepending the empty group leaves every head unchanged. -/
theorem modifyHead_nil_prepend (l : List (List Char)) :
    l.modifyHead (fun g => ([] : List Char) ++ g) = l := by
  cases l <;> rfl

/-- Modifying the head by the identity changes nothing. -/
theorem modifyHead_id (l : List (List Char)) :
    l.modifyHead (fun g => g) = l := by
  cases l <;> rfl

/-- C1: inside double quotes with a pending escape, a double quote or a
backslash is appended alone, any other character is appended with the
backslash preserved verbatim, and in both cases the pending escape is
cleared; tokenizing the literal input `"a\nb"` yields the single token
`a\nb` with the backslash preserved. -/
theorem C1_double_quote_escape (s : TokState) (ch : Char)
    (hd : s.in_double = true) (he : s.esc = true) :
    ((ch = '"' ∨ ch = '\\') →
      stepChar s ch = { s with cur := s.cur.push ch, esc := false }) ∧
    (¬(ch = '"' ∨ ch = '\\') →
      stepChar s ch = { s with cur := (s.cur.push '\\').push ch, esc := false }) ∧
    split_quoted_line "\"a\\nb\"".data = ["a\\nb"] := by
  refine ⟨fun h => ?_, fun h => ?_, by decide⟩
  · simp [stepChar, hd, he, h]
  · simp [stepChar, hd, he, h]

/-- C1 witness: the escaped-backslash and other-character branches at
concrete states. -/
theorem C1_witness :
    stepChar ⟨[], "", false, true, true⟩ 'n' = ⟨[], "\\n", false, true, false⟩ ∧
    stepChar ⟨[], "", false, true, true⟩ '"' = ⟨[], "\"", false, true, false⟩ := by
  have h1 := C1_double_quote_escape ⟨[], "", false, true, true⟩ 'n' rfl rfl
  have h2 := C1_double_quote_escape ⟨[], "", false, true, true⟩ '"' rfl rfl
  exact ⟨(h1.2.1 (by decide)).trans (by decide), (h2.1 (Or.inl rfl)).trans (by decide)⟩

/-- C2: outside quotes with a pending escape, the next character is
appended literally (whitespace and quotes included) and the escape is
cleared; tokenizing the literal input `a\ b` yields the single token
`a b`. -/
theorem C2_normal_escape_literal (s : TokState) (ch : Char)
    (hd : s.in_double = false) (hs : s.in_single = false) (he : s.esc = true) :
    stepChar s ch = { s with cur := s.cur.push ch, esc := false } ∧
    split_quoted_line "a\\ b".data = ["a b"] :=
  ⟨by simp [stepChar, hd, hs, he], by decide⟩

/-- C2 witness: an escaped space at a concrete state. -/
theorem C2_witness :
    stepChar ⟨[], "a", false, false, true⟩ ' ' = ⟨[], "a ", false, false, false⟩ :=
  ((C2_normal_escape_literal ⟨[], "a", false, false, true⟩ ' ' rfl rfl rfl).1).trans
    (by decide)

/-- C3: inside single quotes, any character other than the closing quote
is appended literally with no escape processing, the closing quote only
leaves single-quote mode without being appended, and tokenizing `'a b'`
yields the single token `a b` with the quotes stripped. -/
theorem C3_single_quote_literal (s : TokState) (ch : Char)
    (hd : s.in_double = false) (hs : s.in_single = true) :
    (ch ≠ '\'' → stepChar s ch = { s with cur := s.cur.push ch }) ∧
    (ch = '\'' → stepChar s ch = { s with in_single := false }) ∧
    split_quoted_line "'a b'".data = ["a b"] := by
  refine ⟨fun h => ?_, fun h => ?_, by decide⟩
  · simp [stepChar, hd, hs, h]
  · simp [stepChar, hd, hs, h]

/-- C3 witness: a backslash inside single quotes is literal, and the
closing quote is not appended. -/
theorem C3_witness :
    stepChar ⟨[], "a", true, false, false⟩ '\\' = ⟨[], "a\\", true, false, false⟩ ∧
    stepChar ⟨[], "a", true, false, false⟩ '\'' = ⟨[], "a", false, false, false⟩ := by
  have h := C3_single_quote_literal ⟨[], "a", true, false, false⟩
  exact ⟨((h '\\' rfl rfl).1 (by decide)).trans (by decide),
    ((h '\'' rfl rfl).2.1 rfl).trans (by decide)⟩

/-- C6: when the escape flag is still set at end of input, a literal
backslash is appended to the current token, which is then necessarily
non-empty and flushed; tokenizing the literal input `foo\` yields the
single token `foo\`. -/
theorem C6_trailing_escape (s : TokState) (h : s.esc = true) :
    finalize s = s.parts ++ [s.cur.push '\\'] ∧
    split_quoted_line "foo\\".data = ["foo\\"] := by
  refine ⟨?_, by decide⟩
  simp [finalize, h, push_ne_empty]

/-- C6 witness: the epilogue at a concrete state with a pending escape. -/
theorem C6_witness : finalize ⟨[], "foo", false, false, true⟩ = ["foo\\"] :=
  ((C6_trailing_escape ⟨[], "foo", false, false, true⟩ rfl).1).trans (by decide)

/-- One loop iteration preserves the invariant that single-quote mode
excludes double-quote mode and a pending escape. -/
theorem stepChar_single_inv (s : TokState) (c : Char)
    (h : s.in_single = true → s.in_double = false ∧ s.esc = false) :
    (stepChar s c).in_single = true →
    (stepChar s c).in_double = false ∧ (stepChar s c).esc = false := by
  unfold stepChar
  split_ifs <;> simp_all

/-- The whole loop preserves the single-quote exclusion invariant. -/
theorem foldl_single_inv (cs : List Char) (s : TokState)
    (h : s.in_single = true → s.in_double = false ∧ s.esc = false) :
    (cs.foldl stepChar s).in_single = true →
    (cs.foldl stepChar s).in_double = false ∧ (cs.foldl stepChar s).esc = false := by
  induction cs generalizing s with
  | nil => exact h
  | cons c rest ih => exact ih (stepChar s c) (stepChar_single_inv s c h)

/-- In the state reached at end of input, single-quote mode excludes
double-quote mode and a pending escape. -/
theorem runState_single_inv (cs : List Char) :
    (runState cs).in_single = true →
    (runState cs).in_double = false ∧ (runState cs).esc = false :=
  foldl_single_inv cs initState (by intro h; cases h)

/-- C5 counterexample: on the literal input `"\` (a double quote followed
by a backslash) the input ends with the escape flag set while the
tokenizer is still in double-quote mode, not in Normal mode. -/
theorem C5_counterexample :
    ¬ ((runState "\"\\".data).esc = true →
       (runState "\"\\".data).in_single = false ∧
       (runState "\"\\".data).in_double = false) := by
  decide

/-- C5 amended: if the escape flag is still set when the input ends, the
tokenizer is not in single-quote mode (it is in Normal or double-quote
mode). -/
theorem C5_escape_not_single (cs : List Char)
    (h : (runState cs).esc = true) : (runState cs).in_single = false := by
  cases hs : (runState cs).in_single
  · rfl
  · have h2 := (runState_single_inv cs hs).2
    rw [h] at h2
    exact absurd h2 (by simp)

/-- C5 witness: the input `\` (a lone backslash) ends with the escape
flag set, outside single-quote mode. -/
theorem C5_witness :
    (runState "\\".data).esc = true ∧ (runState "\\".data).in_single = false :=
  ⟨by decide, C5_escape_not_single "\\".data (by decide)⟩

/-- One loop iteration preserves non-emptiness of all flushed tokens. -/
theorem stepChar_parts_inv (s : TokState) (c : Char)
    (h : ∀ t ∈ s.parts, t ≠ "") : ∀ t ∈ (stepChar s c).parts, t ≠ "" := by
  unfold stepChar
  split_ifs <;> try simp_all
  rintro t (ht | rfl)
  · exact h t ht
  · assumption

/-- The whole loop preserves non-emptiness of all flushed tokens. -/
theorem foldl_parts_inv (cs : List Char) (s : TokState)
    (h : ∀ t ∈ s.parts, t ≠ "") : ∀ t ∈ (cs.foldl stepChar s).parts, t ≠ "" := by
  induction cs generalizing s with
  | nil => exact h
  | cons c rest ih => exact ih (stepChar s c) (stepChar_parts_inv s c h)

/-- C8: every token produced by the tokenizer is non-empty, for every
input. -/
theorem C8_no_empty_tokens (cs : List Char) (t : String)
    (h : t ∈ split_quoted_line cs) : t ≠ "" := by
  have hparts : ∀ u ∈ (runState cs).parts, u ≠ "" :=
    foldl_parts_inv cs initState (by intro u hu; cases hu)
  simp only [split_quoted_line, finalize] at h
  split at h <;> split at h
  all_goals try exact hparts t h
  all_goals
    rename_i hne
    rcases List.mem_append.mp h with h1 | h1
    · exact hparts t h1
    · rw [List.mem_singleton.mp h1]; exact hne

/-- C8 witness: no empty token appears for a run of separators. -/
theorem C8_witness : "" ∉ split_quoted_line "a  b".data :=
  fun h => C8_no_empty_tokens "a  b".data "" h rfl

/-- The epilogue in a Normal-mode state with no pending escape just
flushes a non-empty current token. -/
theorem finalize_normal (parts : List String) (cur : String) :
    finalize ⟨parts, cur, false, false, false⟩ =
      if cur = "" then parts else parts ++ [cur] := by
  simp [finalize]

/-- C7: the tokenizer is total — every input produces a token sequence;
an input ending inside an unterminated quoted span gives the same output
as if the quote were closed at end of input (the remainder is literal and
the open quote is implicitly closed), and the accumulated non-empty token
is flushed. -/
theorem C7_total_implicit_close (cs : List Char) :
    (∃ ts : List String, split_quoted_line cs = ts) ∧
    ((runState cs).in_single = true →
      split_quoted_line (cs ++ ['\'']) = split_quoted_line cs) ∧
    ((runState cs).in_double = true → (runState cs).esc = false →
      split_quoted_line (cs ++ ['"']) = split_quoted_line cs) ∧
    split_quoted_line "'a b".data = ["a b"] ∧
    split_quoted_line "\"x y".data = ["x y"] := by
  refine ⟨⟨_, rfl⟩, fun h => ?_, fun h he => ?_, by decide, by decide⟩
  · have hd : (runState cs).in_double = false := (runState_single_inv cs h).1
    have hrun : runState (cs ++ ['\'']) = stepChar (runState cs) '\'' := by
      simp [runState, List.foldl_append]
    have hstep : stepChar (runState cs) '\'' =
        { runState cs with in_single := false } := by
      simp [stepChar, hd, h]
    rw [split_quoted_line, hrun, hstep]
    rfl
  · have hrun : runState (cs ++ ['"']) = stepChar (runState cs) '"' := by
      simp [runState, List.foldl_append]
    have hstep : stepChar (runState cs) '"' =
        { runState cs with in_double := false } := by
      simp [stepChar, h, he]
    rw [split_quoted_line, hrun, hstep]
    rfl

/-- C7 witness: closing an unterminated single or double quote at end of
input does not change the output. -/
theorem C7_witness :
    split_quoted_line ("'a b".data ++ ['\'']) = split_quoted_line "'a b".data ∧
    split_quoted_line ("\"x y".data ++ ['"']) = split_quoted_line "\"x y".data :=
  ⟨(C7_total_implicit_close "'a b".data).2.1 (by decide),
   (C7_total_implicit_close "\"x y".data).2.2.1 (by decide) (by decide)⟩

/-- Inside single quotes, a quote-free run of characters is appended to
the current token verbatim and the state flags are unchanged. -/
theorem foldl_single_quoted (X : List Char) (h : '\'' ∉ X)
    (parts : List String) (cur : String) :
    X.foldl stepChar ⟨parts, cur, true, false, false⟩ =
      ⟨parts, ⟨cur.data ++ X⟩, true, false, false⟩ := by
  induction X generalizing cur with
  | nil => simp
  | cons c rest ih =>
    simp only [List.mem_cons, not_or] at h
    have hc : c ≠ '\'' := fun he => h.1 he.symm
    have hstep : stepChar ⟨parts, cur, true, false, false⟩ c =
        ⟨parts, cur.push c, true, false, false⟩ := by
      simp [stepChar, hc]
    rw [List.foldl_cons, hstep, ih h.2 (cur.push c)]
    simp [String.data_push]

/-- C9: wrapping any single-quote-free string in single quotes and
tokenizing reproduces the string exactly when the resulting tokens are
joined with no separator. -/
theorem C9_single_quote_roundtrip (X : List Char) (h : '\'' ∉ X) :
    String.join (split_quoted_line ('\'' :: (X ++ ['\'']))) = String.mk X := by
  have h0 : stepChar initState '\'' = ⟨[], "", true, false, false⟩ := by decide
  have hrun : runState ('\'' :: (X ++ ['\''])) = ⟨[], ⟨X⟩, false, false, false⟩ := by
    show (('\'' :: (X ++ ['\''])).foldl stepChar initState) = _
    rw [List.foldl_cons, h0, List.foldl_append, foldl_single_quoted X h [] ""]
    show stepChar ⟨[], ⟨[] ++ X⟩, true, false, false⟩ '\'' = _
    simp [stepChar]
  rw [split_quoted_line, hrun, finalize_normal]
  by_cases hX : (⟨X⟩ : String) = ""
  · have hnil : X = [] := congrArg String.data hX
    subst hnil
    rw [if_pos hX]
    rfl
  · rw [if_neg hX]
    rfl

/-- C9 witness: the round trip at the concrete string `a b`. -/
theorem C9_witness :
    String.join (split_quoted_line ('\'' :: ("a b".data ++ ['\'']))) =
      String.mk "a b".data :=
  C9_single_quote_roundtrip "a b".data (by decide)

/-- On quote-free and backslash-free input the loop, started in a
Normal-mode state, produces exactly the non-empty whitespace-separated
groups, with the pending token prefixed to the first group. -/
theorem tok_plain_aux (cs : List Char)
    (h : ∀ c ∈ cs, c ≠ '\'' ∧ c ≠ '"' ∧ c ≠ '\\')
    (parts : List String) (cur : String) :
    finalize (cs.foldl stepChar ⟨parts, cur, false, false, false⟩) =
      parts ++ ((splitWs cs).modifyHead (fun g => cur.data ++ g)).filterMap
        (fun g => if g.isEmpty then none else some (String.mk g)) := by
  induction cs generalizing parts cur with
  | nil =>
    rw [List.foldl_nil, finalize_normal]
    obtain ⟨l⟩ := cur
    cases l with
    | nil => simp [splitWs]
    | cons a as =>
      have hc : (⟨a :: as⟩ : String) ≠ "" := by
        intro he; exact absurd (congrArg String.data he) (by simp)
      rw [if_neg hc]
      simp [splitWs]
  | cons c rest ih =>
    obtain ⟨hq, hdq, hb⟩ := h c (List.mem_cons_self c rest)
    have hrest : ∀ a ∈ rest, a ≠ '\'' ∧ a ≠ '"' ∧ a ≠ '\\' :=
      fun a ha => h a (List.mem_cons_of_mem c ha)
    rw [List.foldl_cons]
    by_cases hw : isAsciiWhitespace c = true
    · have hstep : stepChar ⟨parts, cur, false, false, false⟩ c =
          if cur = "" then ⟨parts, cur, false, false, false⟩
          else ⟨parts ++ [cur], "", false, false, false⟩ := by
        simp [stepChar, hq, hdq, hb, hw]
      rw [hstep]
      by_cases hc : cur = ""
      · rw [if_pos hc, ih hrest parts cur]
        have hd : cur.data = [] := congrArg String.data hc
        simp [splitWs, hw, hd, modifyHead_nil_prepend, modifyHead_id]
      · rw [if_neg hc, ih hrest (parts ++ [cur]) ""]
        have hd : cur.data ≠ [] := fun he => hc (String.ext he)
        have hd2 : cur.data.isEmpty = false := by
          cases he : cur.data
          · exact absurd he hd
          · rfl
        simp [splitWs, hw, modifyHead_id, hd, hd2, List.filterMap_cons]
    · have hstep : stepChar ⟨parts, cur, false, false, false⟩ c =
          ⟨parts, cur.push c, false, false, false⟩ := by
        simp [stepChar, hq, hdq, hb, hw]
      have hfun : (fun g => (cur.push c).data ++ g) =
          (fun g => cur.data ++ (c :: g)) := by
        funext g
        simp [String.data_push]
      rw [hstep, ih hrest parts (cur.push c), hfun]
      rw [Bool.not_eq_true] at hw
      have hsplit : splitWs (c :: rest) = (splitWs rest).modifyHead (fun g => c :: g) := by
        simp [splitWs, hw]
      rw [hsplit, modifyHead_modifyHead]

/-- C4: on input free of quote and backslash characters the tokenizer
returns exactly the whitespace-split tokens, with runs of whitespace
collapsed and leading/trailing whitespace ignored; empty and blank
inputs give the empty token sequence. -/
theorem C4_whitespace_split (cs : List Char)
    (h : ∀ c ∈ cs, c ≠ '\'' ∧ c ≠ '"' ∧ c ≠ '\\') :
    split_quoted_line cs = wsSplit cs ∧
    split_quoted_line "".data = [] ∧
    split_quoted_line "   ".data = [] := by
  refine ⟨?_, by decide, by decide⟩
  have h0 := tok_plain_aux cs h [] ""
  have hinit : split_quoted_line cs =
      finalize (cs.foldl stepChar ⟨[], "", false, false, false⟩) := rfl
  rw [hinit, h0]
  have hd : ("" : String).data = [] := rfl
  simp [wsSplit, hd, modifyHead_nil_prepend, modifyHead_id]

/-- C4 witness: a plain input with a run of whitespace. -/
theorem C4_witness :
    split_quoted_line "a  b c".data = wsSplit "a  b c".data :=
  (C4_whitespace_split "a  b c".data (by decide)).1

/-- C10: outside quotes, tokens split exactly at ASCII whitespace: an
ASCII whitespace character flushes a non-empty current token, while any
other non-special character — including non-ASCII Unicode whitespace
such as U+00A0 — is appended to the current token as an ordinary
literal; tokenizing `a`, U+00A0, `b` yields that three-character single
token. -/
theorem C10_ascii_delimiters (s : TokState) (ch : Char)
    (hd : s.in_double = false) (hs : s.in_single = false) (he : s.esc = false)
    (hq : ch ≠ '\'') (hdq : ch ≠ '"') (hb : ch ≠ '\\') :
    (isAsciiWhitespace ch = true →
      stepChar s ch =
        if s.cur = "" then s
        else { s with parts := s.parts ++ [s.cur], cur := "" }) ∧
    (isAsciiWhitespace ch = false →
      stepChar s ch = { s with cur := s.cur.push ch }) ∧
    isAsciiWhitespace '\u00A0' = false ∧
    split_quoted_line "a\u00A0b".data = ["a\u00A0b"] := by
  refine ⟨fun hw => ?_, fun hw => ?_, by decide, by decide⟩
  · simp [stepChar, hd, hs, he, hq, hdq, hb, hw]
  · simp [stepChar, hd, hs, he, hq, hdq, hb, hw]

/-- C10 witness: U+00A0 is appended literally in a concrete Normal-mode
state. -/
theorem C10_witness :
    stepChar ⟨[], "a", false, false, false⟩ '\u00A0' =
      ⟨[], "a\u00A0", false, false, false⟩ :=
  ((C10_ascii_delimiters ⟨[], "a", false, false, false⟩ '\u00A0' rfl rfl rfl
      (by decide) (by decide) (by decide)).2.1 (by decide)).trans (by decide)

end RustCli
